import Mathlib

/-!
Verification development for the DNS-facing core of the interactsh server
(`pkg/server/dns_server.go`).  The Go source is shallowly embedded: pure Go
functions become Lean functions over `String`/`List`, Go maps become
association lists, the `rand.Intn` pick becomes an explicit `Nat` choice
index, and the nil-pointer panic reachable in `getMsgHost` is modelled by an
`Option` result (`none` = panic).  Go's standard `strings` helpers are
re-implemented structurally (over `String.data`) so that all definitions
reduce inside the kernel.
-/

namespace Interactsh

/-- Models Go `strings.ToLower` for the ASCII strings handled by the server
(Go lowers Unicode as well; all inputs of interest here are ASCII). -/
def toLowerStr (s : String) : String :=
  String.mk (s.data.map Char.toLower)

/-- Aux for `splitOnDot`: walks the characters, `cur` holds the current field
reversed. -/
def splitOnDotAux : List Char → List Char → List String
  | [], cur => [String.mk cur.reverse]
  | c :: rest, cur =>
    if c == '.' then String.mk cur.reverse :: splitOnDotAux rest []
    else splitOnDotAux rest (c :: cur)

/-- Models Go `strings.Split(s, ".")`: split on every dot, keeping empty
fields (`""` splits to `[""]`, `"a."` to `["a", ""]`). -/
def splitOnDot (s : String) : List String :=
  splitOnDotAux s.data []

/-- Aux for `splitN2Dot`. -/
def splitN2DotAux : List Char → List Char → List String
  | [], cur => [String.mk cur.reverse]
  | c :: rest, cur =>
    if c == '.' then [String.mk cur.reverse, String.mk rest]
    else splitN2DotAux rest (c :: cur)

/-- Models Go `strings.SplitN(s, ".", 2)`: split at the first dot only;
a dot-free string yields a single-element list. -/
def splitN2Dot (s : String) : List String :=
  splitN2DotAux s.data []

/-- Models Go `strings.Join(xs, ".")`. -/
def joinDot (xs : List String) : String :=
  String.intercalate "." xs

/-- Models Go `strings.Contains(s, string(c))` for a one-character needle. -/
def containsChar (s : String) (c : Char) : Bool :=
  s.data.contains c

/-- Models Go `strings.HasPrefix`. -/
def hasPrefixStr (s pre : String) : Bool :=
  pre.data.isPrefixOf s.data

/-- Models Go `strings.HasSuffix`. -/
def hasSuffixStr (s suf : String) : Bool :=
  suf.data.isSuffixOf s.data

/-- Models `stringsutil.HasSuffixI` from the projectdiscovery utils
dependency: case-insensitive suffix test. -/
def hasSuffixI (s suf : String) : Bool :=
  hasSuffixStr (toLowerStr s) (toLowerStr suf)

/-- Models `dns.Fqdn` from the miekg dns dependency: append a trailing dot
when absent (escaped-dot handling is ignored; apex names are plain ASCII). -/
def fqdn (s : String) : String :=
  if hasSuffixStr s "." then s else s ++ "."

/-- `splitSubdomainParts` from dns_server.go: cut one label at every
`-`/`_`, preserving empty runs; the trailing accumulator is always
emitted, so the result is never empty. -/
def splitSubdomainParts (s : String) : List String :=
  let r := s.data.foldl
    (fun (st : List String × String) c =>
      if c == '-' || c == '_' then (st.1 ++ [st.2], "")
      else (st.1, st.2.push c))
    ([], "")
  r.1 ++ [r.2]

/-! ### Generic last-match machinery

The extractor loops overwrite their accumulator on every hit, so the final
value is decided by the last hit in iteration order.  `lastMatch?` names
that element. -/

/-- The last element of `l` satisfying `p`, if any. -/
def lastMatch? (p : α → Bool) : List α → Option α
  | [] => none
  | x :: t =>
    match lastMatch? p t with
    | some y => some y
    | none => if p x then some x else none

theorem lastMatch?_eq_none {p : α → Bool} {l : List α} :
    lastMatch? p l = none ↔ ∀ x ∈ l, p x = false := by
  induction l with
  | nil => simp [lastMatch?]
  | cons x t ih =>
    simp only [lastMatch?, List.mem_cons]
    cases ht : lastMatch? p t with
    | some y =>
      constructor
      · intro hc; exact absurd hc (by simp)
      · intro hall
        have hnone := ih.mpr (fun z hz => hall z (Or.inr hz))
        rw [hnone] at ht; exact absurd ht (by simp)
    | none =>
      by_cases hpx : p x = true
      · simp only [hpx, if_true]
        constructor
        · intro hc; exact absurd hc (by simp)
        · intro hall
          rw [hall x (Or.inl rfl)] at hpx; exact absurd hpx (by simp)
      · simp only [Bool.not_eq_true] at hpx
        simp only [hpx, Bool.false_eq_true, if_false]
        constructor
        · intro _ z hz
          rcases hz with rfl | hz
          · exact hpx
          · exact ih.mp ht z hz
        · intro _; trivial

theorem lastMatch?_isSome {p : α → Bool} {l : List α} {x : α}
    (hx : x ∈ l) (hp : p x = true) : (lastMatch? p l).isSome := by
  cases h : lastMatch? p l with
  | some y => rfl
  | none => rw [lastMatch?_eq_none.mp h x hx] at hp; exact absurd hp (by simp)

theorem lastMatch?_decomp {p : α → Bool} {l : List α} {y : α}
    (h : lastMatch? p l = some y) :
    ∃ l1 l2, l = l1 ++ y :: l2 ∧ p y = true ∧ ∀ z ∈ l2, p z = false := by
  induction l with
  | nil => simp [lastMatch?] at h
  | cons x t ih =>
    simp only [lastMatch?] at h
    cases ht : lastMatch? p t with
    | some w =>
      rw [ht] at h
      obtain rfl : w = y := by simpa using h
      obtain ⟨l1, l2, heq, hpy, hl2⟩ := ih ht
      exact ⟨x :: l1, l2, by simp [heq], hpy, hl2⟩
    | none =>
      rw [ht] at h
      by_cases hpx : p x = true
      · simp only [hpx, if_true] at h
        obtain rfl : x = y := by simpa using h
        exact ⟨[], t, rfl, hpx, lastMatch?_eq_none.mp ht⟩
      · simp only [Bool.not_eq_true] at hpx
        simp [hpx] at h

theorem lastMatch?_mem {p : α → Bool} {l : List α} {y : α}
    (h : lastMatch? p l = some y) : y ∈ l ∧ p y = true := by
  obtain ⟨l1, l2, heq, hpy, _⟩ := lastMatch?_decomp h
  exact ⟨by simp [heq], hpy⟩

/-- A fold that overwrites its accumulator on every hit computes the image
of the last hit. -/
theorem foldl_overwrite {p : α → Bool} {f : α → β} (l : List α) (init : β) :
    l.foldl (fun acc x => if p x then f x else acc) init =
      match lastMatch? p l with
      | some y => f y
      | none => init := by
  induction l generalizing init with
  | nil => simp [lastMatch?]
  | cons x t ih =>
    simp only [List.foldl_cons, lastMatch?]
    rw [ih]
    cases ht : lastMatch? p t with
    | some w => simp
    | none => by_cases hpx : p x = true <;> simp [hpx]

theorem foldl_flatMap (f : β → α → β) (g : γ → List α) (l : List γ) (init : β) :
    (l.flatMap g).foldl f init = l.foldl (fun acc c => (g c).foldl f acc) init := by
  induction l generalizing init with
  | nil => rfl
  | cons x t ih => simp [List.flatMap_cons, List.foldl_append, ih]

theorem pairwise_of_trivial {S : β → β → Prop} (l : List β) (h : ∀ x y, S x y) :
    l.Pairwise S := by
  induction l with
  | nil => exact List.Pairwise.nil
  | cons x t ih => exact List.pairwise_cons.mpr ⟨fun y _ => h x y, ih⟩

theorem flatMap_pairwise {R : α → α → Prop} {S : β → β → Prop} {l : List α} {g : α → List β}
    (hl : l.Pairwise R)
    (hwithin : ∀ a ∈ l, (g a).Pairwise S)
    (hacross : ∀ a b, R a b → ∀ x ∈ g a, ∀ y ∈ g b, S x y) :
    (l.flatMap g).Pairwise S := by
  induction l with
  | nil => simp
  | cons a t ih =>
    rw [List.pairwise_cons] at hl
    simp only [List.flatMap_cons]
    rw [List.pairwise_append]
    refine ⟨hwithin a (List.mem_cons_self a t),
      ih hl.2 (fun b hb => hwithin b (List.mem_cons.mpr (Or.inr hb))), ?_⟩
    intro x hx y hy
    rw [List.mem_flatMap] at hy
    obtain ⟨b, hb, hyb⟩ := hy
    exact hacross a b (hl.1 b hb) x hx y hyb

theorem enumFrom_fst_le {n : Nat} {l : List α} {q : Nat × α}
    (h : q ∈ l.enumFrom n) : n ≤ q.1 := by
  induction l generalizing n with
  | nil => simp [List.enumFrom] at h
  | cons x t ih =>
    simp only [List.enumFrom, List.mem_cons] at h
    rcases h with rfl | h
    · exact Nat.le_refl n
    · exact Nat.le_of_lt (Nat.lt_of_lt_of_le (Nat.lt_succ_self n) (ih h))

theorem enumFrom_pairwise (n : Nat) (l : List α) :
    (l.enumFrom n).Pairwise (fun a b => a.1 < b.1) := by
  induction l generalizing n with
  | nil => exact List.Pairwise.nil
  | cons x t ih =>
    simp only [List.enumFrom]
    exact List.pairwise_cons.mpr
      ⟨fun q hq => Nat.lt_of_lt_of_le (Nat.lt_succ_self n) (enumFrom_fst_le hq), ih (n + 1)⟩

theorem enum_pairwise (l : List α) : l.enum.Pairwise (fun a b => a.1 < b.1) :=
  enumFrom_pairwise 0 l

theorem mem_suffix_of_pairwise {S : β → β → Prop} {l1 l2 : List β} {x y : β}
    (hp : (l1 ++ x :: l2).Pairwise S) (hy : y ∈ l1 ++ x :: l2)
    (hrefl : S x x) (hnx : ¬ S y x) : y ∈ l2 := by
  rw [List.pairwise_append] at hp
  rcases List.mem_append.mp hy with h1 | h2
  · exact absurd (hp.2.2 y h1 x (List.mem_cons_self x l2)) hnx
  · rcases List.mem_cons.mp h2 with rfl | h2
    · exact absurd hrefl hnx
    · exact h2

/-! ### Correlation Extractor (handleInteraction, dns_server.go 290-389) -/

/-- Options fields consumed by `handleInteraction`.  `isCID` models
`h.options.isCorrelationID` and `getCorrelationID` models
`h.options.getCorrelationID`: both live in the options package outside the
supplied sources, so the claims here are parametric in them. -/
structure ExtractorOptions where
  domains : List String
  scanEverywhere : Bool
  isCID : String → Bool
  idLength : Nat
  getCorrelationID : String → String
  rootTLD : Bool

/-- `foundDomain` loop of handleInteraction (lines 298-305): first configured
domain whose fqdn is a case-insensitive suffix of the query name. -/
def findApex (domains : List String) (domain : String) : Option String :=
  domains.find? (fun d => hasSuffixI domain (fqdn d))

/-- The full id recorded for a hit at enumerated label `ip`:
`fullID = part; if i+1 <= len(parts) { fullID = join(parts[:i+1], ".") }`. -/
def fullIdAt (parts : List String) (ip : Nat × String) : String :=
  if ip.1 + 1 ≤ parts.length then joinDot (parts.take (ip.1 + 1)) else ip.2

/-- Strict label mode of handleInteraction (lines 349-363): split the query
name on dots, split each label with `splitSubdomainParts`, and overwrite
`(uniqueID, fullID)` on every sub-token accepted by `isCID`.  The sub-token
is passed to `isCID` and recorded as-is (no case folding). -/
def extractStrict (isCID : String → Bool) (domain : String) : String × String :=
  let parts := splitOnDot domain
  parts.enum.foldl
    (fun acc ip =>
      (splitSubdomainParts ip.2).foldl
        (fun acc2 sub => if isCID sub then (sub, fullIdAt parts ip) else acc2)
        acc)
    ("", "")

/-- The delimiter set `. \n \t " '` of the scan-everywhere tokenizer
(control and quote characters written via their code points). -/
def dnsDelims : List Char :=
  ['.', Char.ofNat 10, Char.ofNat 9, Char.ofNat 34, Char.ofNat 39]

/-- Aux for `splitAny`: `cur` holds the current field reversed. -/
def splitAnyAux (seps : List Char) : List Char → List Char → List String
  | [], cur => if cur.isEmpty then [] else [String.mk cur.reverse]
  | c :: rest, cur =>
    if seps.contains c then
      if cur.isEmpty then splitAnyAux seps rest []
      else String.mk cur.reverse :: splitAnyAux seps rest []
    else splitAnyAux seps rest (c :: cur)

/-- Models the `stringsutil.SplitAny` dependency (which delegates to
`strings.FieldsFunc`): maximal delimiter-free fields, empty fields dropped. -/
def splitAny (s : String) (seps : List Char) : List String :=
  splitAnyAux seps s.data []

/-- Models the `stringsutil.SlideWithLength` dependency: every length-`l`
window of `s` in order; a string shorter than `l` is emitted whole. -/
def slideWithLength (s : String) (l : Nat) : List String :=
  if s.data.length < l then [s]
  else (List.range (s.data.length - l + 1)).map (fun i => String.mk ((s.data.drop i).take l))

/-- The windows visited by scan-everywhere mode, in iteration order. -/
def scanWindows (idLength : Nat) (requestMsg : String) : List String :=
  (splitAny requestMsg dnsDelims).flatMap (fun chunk => slideWithLength chunk idLength)

/-- Scan-everywhere mode of handleInteraction (lines 338-348): tokenize the
request dump, slide an `idLength` window over each chunk, and overwrite
`(uniqueID, fullID)` with `(lower(part), part)` on every accepted window. -/
def extractScan (isCID : String → Bool) (idLength : Nat) (requestMsg : String) :
    String × String :=
  (splitAny requestMsg dnsDelims).foldl
    (fun acc chunk =>
      (slideWithLength chunk idLength).foldl
        (fun acc2 part =>
          if isCID (toLowerStr part) then (toLowerStr part, part) else acc2)
        acc)
    ("", "")

/-- The `(uniqueID, fullID)` pair computed by handleInteraction lines
337-364 (both empty when the query name is under no configured apex). -/
def extractIDs (opts : ExtractorOptions) (domain requestMsg : String) : String × String :=
  match findApex opts.domains domain with
  | none => ("", "")
  | some _ =>
    if opts.scanEverywhere then extractScan opts.isCID opts.idLength requestMsg
    else extractStrict opts.isCID domain

/-- The correlation-branch storage emissions of handleInteraction (lines
366-388): one `AddInteraction(getCorrelationID uniqueID, …)` call carrying
`(uniqueID, fullID)` when `uniqueID` is non-empty, none otherwise. -/
def correlationBranch (opts : ExtractorOptions) (domain requestMsg : String) :
    List (String × String × String) :=
  let ids := extractIDs opts domain requestMsg
  if ids.1 ≠ "" then [(opts.getCorrelationID ids.1, ids.1, ids.2)] else []

/-- The `((index, label), sub-token)` triples visited by the strict loops,
in iteration order. -/
def strictPairs (parts : List String) : List ((Nat × String) × String) :=
  parts.enum.flatMap (fun ip => (splitSubdomainParts ip.2).map (fun sub => (ip, sub)))

theorem extractStrict_eq (isCID : String → Bool) (domain : String) :
    extractStrict isCID domain =
      match lastMatch? (fun (q : (Nat × String) × String) => isCID q.2)
          (strictPairs (splitOnDot domain)) with
      | some q => (q.2, fullIdAt (splitOnDot domain) q.1)
      | none => ("", "") := by
  have h1 : extractStrict isCID domain =
      (strictPairs (splitOnDot domain)).foldl
        (fun acc q => if isCID q.2 then (q.2, fullIdAt (splitOnDot domain) q.1) else acc)
        ("", "") := by
    unfold extractStrict strictPairs
    rw [foldl_flatMap]
    simp only [List.foldl_map]
  rw [h1, foldl_overwrite]
  cases lastMatch? (fun (q : (Nat × String) × String) => isCID q.2)
    (strictPairs (splitOnDot domain)) <;> rfl

theorem extractScan_eq (isCID : String → Bool) (idLength : Nat) (requestMsg : String) :
    extractScan isCID idLength requestMsg =
      match lastMatch? (fun w => isCID (toLowerStr w)) (scanWindows idLength requestMsg) with
      | some w => (toLowerStr w, w)
      | none => ("", "") := by
  have h1 : extractScan isCID idLength requestMsg =
      (scanWindows idLength requestMsg).foldl
        (fun acc w => if isCID (toLowerStr w) then (toLowerStr w, w) else acc)
        ("", "") := by
    unfold extractScan scanWindows
    rw [foldl_flatMap]
  rw [h1, foldl_overwrite]
  cases lastMatch? (fun w => isCID (toLowerStr w)) (scanWindows idLength requestMsg) <;> rfl

theorem mem_strictPairs {parts : List String} {q : (Nat × String) × String}
    (h : q ∈ strictPairs parts) :
    parts.get? q.1.1 = some q.1.2 ∧ q.2 ∈ splitSubdomainParts q.1.2 := by
  unfold strictPairs at h
  rw [List.mem_flatMap] at h
  obtain ⟨ip, hip, hq⟩ := h
  rw [List.mem_map] at hq
  obtain ⟨sub, hsub, rfl⟩ := hq
  exact ⟨List.mem_enum_iff_get?.mp hip, hsub⟩

theorem strictPairs_mem {parts : List String} {i : Nat} {part sub : String}
    (hpart : parts.get? i = some part) (hsub : sub ∈ splitSubdomainParts part) :
    ((i, part), sub) ∈ strictPairs parts := by
  unfold strictPairs
  rw [List.mem_flatMap]
  exact ⟨(i, part), List.mem_enum_iff_get?.mpr hpart,
    List.mem_map.mpr ⟨sub, hsub, rfl⟩⟩

theorem strictPairs_pairwise (parts : List String) :
    (strictPairs parts).Pairwise
      (fun (a b : (Nat × String) × String) => a.1.1 ≤ b.1.1) := by
  unfold strictPairs
  refine flatMap_pairwise (enum_pairwise parts) ?_ ?_
  · intro ip _
    exact List.pairwise_map.mpr
      (pairwise_of_trivial _ (fun _ _ => Nat.le_refl ip.1))
  · intro a b hab x hx y hy
    rw [List.mem_map] at hx hy
    obtain ⟨sx, _, rfl⟩ := hx
    obtain ⟨sy, _, rfl⟩ := hy
    exact Nat.le_of_lt hab

/-! ### Claims C1-C3 -/

/-- C1: for a query name under a configured apex, strict label mode returns
the match from the deepest (highest-index) label containing an accepted
sub-token, with `full_id` the dot-join of labels `0..i`; scan-everywhere
mode returns the last match in iteration order over the delimiter-split
chunks of the request dump and their `idLength` sliding windows. -/
theorem claim_C1 (opts : ExtractorOptions) (domain requestMsg : String) (d : String)
    (hd : findApex opts.domains domain = some d) :
    (opts.scanEverywhere = false →
      ∀ q0 ∈ strictPairs (splitOnDot domain), opts.isCID q0.2 = true →
      ∃ i part sub,
        (splitOnDot domain).get? i = some part ∧
        sub ∈ splitSubdomainParts part ∧
        opts.isCID sub = true ∧
        (∀ j partj subj, i < j → (splitOnDot domain).get? j = some partj →
          subj ∈ splitSubdomainParts partj → opts.isCID subj = false) ∧
        extractIDs opts domain requestMsg =
          (sub, joinDot ((splitOnDot domain).take (i + 1)))) ∧
    (opts.scanEverywhere = true →
      ∀ w0 ∈ scanWindows opts.idLength requestMsg, opts.isCID (toLowerStr w0) = true →
      ∃ ws1 w ws2,
        scanWindows opts.idLength requestMsg = ws1 ++ w :: ws2 ∧
        opts.isCID (toLowerStr w) = true ∧
        (∀ v ∈ ws2, opts.isCID (toLowerStr v) = false) ∧
        extractIDs opts domain requestMsg = (toLowerStr w, w)) := by
  constructor
  · intro hmode q0 hq0 hp0
    have hex : extractIDs opts domain requestMsg = extractStrict opts.isCID domain := by
      unfold extractIDs; rw [hd]; simp [hmode]
    have hsome := lastMatch?_isSome
      (p := fun (q : (Nat × String) × String) => opts.isCID q.2) hq0 hp0
    cases hlm : lastMatch? (fun (q : (Nat × String) × String) => opts.isCID q.2)
        (strictPairs (splitOnDot domain)) with
    | none => rw [hlm] at hsome; exact absurd hsome (by simp)
    | some q =>
      obtain ⟨l1, l2, hdec, hpq, hl2⟩ := lastMatch?_decomp hlm
      have hmemq : q ∈ strictPairs (splitOnDot domain) := by simp [hdec]
      obtain ⟨hget, hsub⟩ := mem_strictPairs hmemq
      refine ⟨q.1.1, q.1.2, q.2, hget, hsub, hpq, ?_, ?_⟩
      · intro j partj subj hij hgetj hsubj
        by_contra hcid
        rw [Bool.not_eq_false] at hcid
        have hmemy : ((j, partj), subj) ∈ strictPairs (splitOnDot domain) :=
          strictPairs_mem hgetj hsubj
        have hy2 : ((j, partj), subj) ∈ l2 := by
          refine mem_suffix_of_pairwise
            (hdec ▸ strictPairs_pairwise (splitOnDot domain)) (hdec ▸ hmemy)
            (Nat.le_refl _) ?_
          exact Nat.not_le.mpr hij
        have hfalse := hl2 _ hy2
        simp [hcid] at hfalse
      · rw [hex, extractStrict_eq, hlm]
        have hlen : q.1.1 < (splitOnDot domain).length := by
          rcases List.get?_eq_some.mp hget with ⟨hlt, _⟩
          exact hlt
        simp [fullIdAt, Nat.succ_le_of_lt hlen]
  · intro hmode w0 hw0 hp0
    have hex : extractIDs opts domain requestMsg =
        extractScan opts.isCID opts.idLength requestMsg := by
      unfold extractIDs; rw [hd]; simp [hmode]
    have hsome := lastMatch?_isSome (p := fun w => opts.isCID (toLowerStr w)) hw0 hp0
    cases hlm : lastMatch? (fun w => opts.isCID (toLowerStr w))
        (scanWindows opts.idLength requestMsg) with
    | none => rw [hlm] at hsome; exact absurd hsome (by simp)
    | some w =>
      obtain ⟨ws1, ws2, hdec, hpw, hws2⟩ := lastMatch?_decomp hlm
      exact ⟨ws1, w, ws2, hdec, hpw, fun v hv => hws2 v hv,
        by rw [hex, extractScan_eq, hlm]⟩

/-- Concrete extractor options used by the C1 witness. -/
def optsC1 : ExtractorOptions :=
  { domains := ["ex"], scanEverywhere := false,
    isCID := fun s => s == "abcd", idLength := 4,
    getCorrelationID := fun s => s, rootTLD := false }

/-- C1 witness: evaluating the strict branch of C1 on `zz.abcd.ex.`. -/
theorem claim_C1_witness :
    ∃ i part sub,
      (splitOnDot "zz.abcd.ex.").get? i = some part ∧
      sub ∈ splitSubdomainParts part ∧
      optsC1.isCID sub = true ∧
      (∀ j partj subj, i < j → (splitOnDot "zz.abcd.ex.").get? j = some partj →
        subj ∈ splitSubdomainParts partj → optsC1.isCID subj = false) ∧
      extractIDs optsC1 "zz.abcd.ex." "" =
        (sub, joinDot ((splitOnDot "zz.abcd.ex.").take (i + 1))) :=
  (claim_C1 optsC1 "zz.abcd.ex." "" "ex" (by decide)).1 rfl
    ((1, "abcd"), "abcd") (by decide) (by decide)

/-- Modelled from the spec: the strict-mode extractor as claim C2 describes
it, testing `isCorrelationID` on the lower-cased sub-token and recording the
lower-cased sub-token as `unique_id`.  (The source, by contrast, passes and
records the raw sub-token in strict mode; only scan-everywhere mode folds
case.) -/
def extractStrictLoweredSpec (isCID : String → Bool) (domain : String) : String × String :=
  let parts := splitOnDot domain
  parts.enum.foldl
    (fun acc ip =>
      (splitSubdomainParts ip.2).foldl
        (fun acc2 sub =>
          if isCID (toLowerStr sub) then (toLowerStr sub, fullIdAt parts ip) else acc2)
        acc)
    ("", "")

/-- A case-sensitive set-membership correlation test, as the spec allows. -/
def cid2 : String → Bool := fun s => s == "ab12"

/-- C2 counterexample: the sub-token `AB12` passes `isCorrelationID` after
lower-casing, so the claimed behaviour records `unique_id = "ab12"`; the
code tests the raw sub-token and records nothing. -/
theorem claim_C2_cex :
    cid2 (toLowerStr "AB12") = true ∧
    extractStrict cid2 "AB12.x." = ("", "") ∧
    extractStrictLoweredSpec cid2 "AB12.x." = ("ab12", "AB12") :=
  ⟨by decide, by decide, by decide⟩

/-- C2 (amended): in strict mode the extractor tests `isCorrelationID` on
each raw sub-token and, on a match, records `unique_id` as that raw
sub-token; no lower-casing is applied at the call site. -/
theorem claim_C2_amended (isCID : String → Bool) (domain : String) (u f : String)
    (h : extractStrict isCID domain = (u, f)) (hu : u ≠ "") :
    isCID u = true ∧
    ∃ i part, (splitOnDot domain).get? i = some part ∧
      u ∈ splitSubdomainParts part ∧
      f = fullIdAt (splitOnDot domain) (i, part) := by
  rw [extractStrict_eq] at h
  cases hlm : lastMatch? (fun (q : (Nat × String) × String) => isCID q.2)
      (strictPairs (splitOnDot domain)) with
  | none =>
    rw [hlm] at h
    exact absurd (congrArg Prod.fst h).symm hu
  | some q =>
    rw [hlm] at h
    obtain ⟨hmem, hpq⟩ := lastMatch?_mem hlm
    obtain ⟨hget, hsub⟩ := mem_strictPairs hmem
    have hu2 : u = q.2 := (congrArg Prod.fst h).symm
    have hf : f = fullIdAt (splitOnDot domain) q.1 := (congrArg Prod.snd h).symm
    subst hu2
    exact ⟨hpq, q.1.1, q.1.2, hget, hsub, hf⟩

/-- C2 witness: the amended claim evaluated at `ab12.x.`. -/
theorem claim_C2_witness :
    cid2 "ab12" = true ∧
    ∃ i part, (splitOnDot "ab12.x.").get? i = some part ∧
      "ab12" ∈ splitSubdomainParts part ∧
      "ab12" = fullIdAt (splitOnDot "ab12.x.") (i, part) :=
  claim_C2_amended cid2 "ab12.x." "ab12" "ab12" (by decide) (by decide)

/-- A correlation test accepting both `aa` and `bb`. -/
def cid3 : String → Bool := fun s => s == "aa" || s == "bb"

/-- Concrete extractor options used by the C3 counterexample and witness. -/
def optsC3 : ExtractorOptions :=
  { domains := ["ex"], scanEverywhere := false, isCID := cid3, idLength := 2,
    getCorrelationID := fun s => s, rootTLD := false }

/-- C3 counterexample: on `aa.bb.ex.` both label 0 (`aa`) and label 1 (`bb`)
match; the first match in scanning order is `aa`, but the stored interaction
carries `bb` - the last match overwrites earlier ones. -/
theorem claim_C3_cex :
    (strictPairs (splitOnDot "aa.bb.ex.")).find? (fun q => cid3 q.2) =
      some ((0, "aa"), "aa") ∧
    correlationBranch optsC3 "aa.bb.ex." "" = [("bb", "bb", "aa.bb")] :=
  ⟨by decide, by decide⟩

/-- C3 (amended): at most one correlation-branch interaction is stored per
DNS message, and when several labels or sub-tokens match in strict mode the
last match in scanning order (the deepest label) is the one emitted. -/
theorem claim_C3_amended (opts : ExtractorOptions) (domain requestMsg : String) :
    (correlationBranch opts domain requestMsg).length ≤ 1 ∧
    (opts.scanEverywhere = false →
      ∀ d, findApex opts.domains domain = some d →
      ∀ q, lastMatch? (fun (q : (Nat × String) × String) => opts.isCID q.2)
          (strictPairs (splitOnDot domain)) = some q →
      q.2 ≠ "" →
      correlationBranch opts domain requestMsg =
        [(opts.getCorrelationID q.2, q.2, fullIdAt (splitOnDot domain) q.1)]) := by
  constructor
  · unfold correlationBranch
    by_cases h : (extractIDs opts domain requestMsg).1 ≠ "" <;> simp [h]
  · intro hmode d hd q hlm hne
    unfold correlationBranch
    have hex : extractIDs opts domain requestMsg =
        (q.2, fullIdAt (splitOnDot domain) q.1) := by
      unfold extractIDs
      rw [hd]
      simp only [hmode, Bool.false_eq_true, if_false]
      rw [extractStrict_eq, hlm]
    rw [hex]
    simp [hne]

/-- C3 witness: the amended claim evaluated on `aa.bb.ex.`. -/
theorem claim_C3_witness :
    (correlationBranch optsC3 "aa.bb.ex." "").length ≤ 1 ∧
    correlationBranch optsC3 "aa.bb.ex." "" =
      [(optsC3.getCorrelationID "bb", "bb",
        fullIdAt (splitOnDot "aa.bb.ex.") (1, "bb"))] :=
  ⟨(claim_C3_amended optsC3 "aa.bb.ex." "").1,
    (claim_C3_amended optsC3 "aa.bb.ex." "").2 rfl "ex" (by decide)
      ((1, "bb"), "bb") (by decide) (by decide)⟩

/-! ### Custom Records Engine (dns_server.go 449-613) -/

/-- The four maps of `customDNSRecords`, as association lists.  Keys are
lower-cased at insertion by the Go constructors. -/
structure CustomDNSRecords where
  records : List (String × String)
  v6Records : List (String × String)
  subdomainRecords : List (String × String)
  subdomainV6Records : List (String × String)

/-- One character of the class `[a-f0-9]`. -/
def isHexChar (c : Char) : Bool :=
  ('a' ≤ c && c ≤ 'f') || ('0' ≤ c && c ≤ '9')

/-- Models `HEX_IP_REGEX.MatchString`: the whole string matches
`^[a-f0-9]{8}$`. -/
def hexIpMatch (s : String) : Bool :=
  s.data.length == 8 && s.data.all isHexChar

def hexVal (c : Char) : Nat :=
  if '0' ≤ c && c ≤ '9' then c.toNat - '0'.toNat else c.toNat - 'a'.toNat + 10

/-- Models `hex.DecodeString` for the lower-case digits the regexp guard
lets through: pairs of hex digits to bytes; odd length or a non-digit
fails. -/
def hexBytes : List Char → Option (List Nat)
  | [] => some []
  | [_] => none
  | c1 :: c2 :: rest =>
    if isHexChar c1 && isHexChar c2 then
      (hexBytes rest).map (fun bs => (16 * hexVal c1 + hexVal c2) :: bs)
    else none

def ip4Dotted (a b c d : Nat) : String :=
  toString a ++ "." ++ toString b ++ "." ++ toString c ++ "." ++ toString d

/-- Models `net.IP(bs).String()`: 4 bytes format to the dotted quad and 16
bytes to an IPv6 textual form (kept schematic), both of which `net.ParseIP`
accepts; any other length gives Go's `"?" + hexdump` error form, which
`net.ParseIP` rejects. -/
def ipBytesString (bs : List Nat) : String :=
  match bs with
  | [a, b, c, d] => ip4Dotted a b c d
  | _ => if bs.length == 16 then "v6:" ++ toString bs else "?" ++ toString bs

/-- The per-token resolution rule of the v4 resolver: empty token - the
default-IP sentinel `""`, token matching `^[a-f0-9]{8}$` - the dotted quad
of its 4 decoded bytes, per-sub-token overlay key - the overlay value,
anything else - nothing. -/
def resolveToken (c : CustomDNSRecords) (part : String) : Option String :=
  if part == "" then some ""
  else if hexIpMatch part then
    match hexBytes part.data with
    | some bs => some (ipBytesString bs)
    | none => none
  else List.lookup (toLowerStr part) c.subdomainRecords

/-- The candidate-collection loop of `checkCustomResponse` (lines
552-565). -/
def collectIps (c : CustomDNSRecords) (subParts : List String) : List String :=
  subParts.foldl
    (fun ips part =>
      if part == "" then ips ++ [""]
      else if hexIpMatch part then
        match hexBytes part.data with
        | some bs => ips ++ [ipBytesString bs]
        | none => ips
      else
        match List.lookup (toLowerStr part) c.subdomainRecords with
        | some ans => ips ++ [ans]
        | none => ips)
    []

theorem foldl_append_toList {g : α → Option β}
    {step : List β → α → List β}
    (hstep : ∀ ips x, step ips x = ips ++ (g x).toList)
    (l : List α) (acc : List β) :
    l.foldl step acc = acc ++ l.filterMap g := by
  induction l generalizing acc with
  | nil => simp
  | cons x t ih =>
    rw [List.foldl_cons, hstep, ih, List.filterMap_cons]
    cases hgx : g x <;> simp [Option.toList]

theorem collectIps_eq (c : CustomDNSRecords) (subParts : List String) :
    collectIps c subParts = subParts.filterMap (resolveToken c) := by
  unfold collectIps
  rw [foldl_append_toList (g := resolveToken c) ?hstep subParts []]
  · exact (List.nil_append _)
  case hstep =>
    intro ips x
    unfold resolveToken
    by_cases h1 : (x == "") = true
    · simp [h1, Option.toList]
    · by_cases h2 : hexIpMatch x = true
      · simp only [h1, h2, Bool.false_eq_true, if_false, if_true]
        cases hexBytes x.data <;> simp [Option.toList]
      · simp only [h1, h2, Bool.false_eq_true, if_false]
        cases List.lookup (toLowerStr x) c.subdomainRecords <;> simp [Option.toList]

/-- `checkCustomResponse` (lines 539-570); the `rand.Intn(len(ips))` draw is
modelled by the explicit choice index `k` (reduced mod the list length). -/
def checkCustomResponse (c : CustomDNSRecords) (zone : String) (k : Nat) : String :=
  let parts := splitN2Dot zone
  if parts.length != 2 then ""
  else
    match List.lookup (toLowerStr (parts.headD "")) c.records with
    | some value => value
    | none =>
      let subParts := splitSubdomainParts (parts.headD "")
      if subParts.length == 1 then ""
      else
        let ips := collectIps c subParts
        if ips.length == 0 then "" else ips.getD (k % ips.length) ""

/-- `checkCustomAAAAResponse` (lines 572-599): the IPv6 variant - only the
sentinel and overlay rules contribute, no hex literals. -/
def checkCustomAAAAResponse (c : CustomDNSRecords) (zone : String) (k : Nat) : String :=
  let parts := splitN2Dot zone
  if parts.length != 2 then ""
  else
    match List.lookup (toLowerStr (parts.headD "")) c.v6Records with
    | some value => value
    | none =>
      let subParts := splitSubdomainParts (parts.headD "")
      if subParts.length == 1 then ""
      else
        let ips := subParts.foldl
          (fun ips part =>
            if part == "" then ips ++ [""]
            else
              match List.lookup (toLowerStr part) c.subdomainV6Records with
              | some ans => ips ++ [ans]
              | none => ips)
          []
        if ips.length == 0 then "" else ips.getD (k % ips.length) ""

theorem checkCustomResponse_eq (c : CustomDNSRecords) (zone : String) (k : Nat)
    (l r : String) (hsplit : splitN2Dot zone = [l, r]) :
    checkCustomResponse c zone k =
      match List.lookup (toLowerStr l) c.records with
      | some value => value
      | none =>
        if (splitSubdomainParts l).length == 1 then ""
        else
          let ips := collectIps c (splitSubdomainParts l)
          if ips.length == 0 then "" else ips.getD (k % ips.length) "" := by
  unfold checkCustomResponse
  rw [hsplit]
  rfl

theorem getD_mem {l : List β} {n : Nat} {d : β} (h : n < l.length) :
    l.getD n d ∈ l := by
  rw [List.getD_eq_getElem?_getD, List.getElem?_eq_getElem h, Option.getD_some]
  exact List.getElem_mem h

/-- C4: with a dotted name whose lower-cased leftmost label is no record key
and splits into n >= 2 sub-tokens, the v4 resolver returns a member of the
multiset of per-token resolutions; an empty candidate multiset, a dot-free
name, or a single sub-token yield "no override" (the empty string). -/
theorem claim_C4 (c : CustomDNSRecords) (zone : String) (k : Nat) :
    ((splitN2Dot zone).length ≠ 2 → checkCustomResponse c zone k = "") ∧
    (∀ l r, splitN2Dot zone = [l, r] →
      List.lookup (toLowerStr l) c.records = none →
      (((splitSubdomainParts l).length = 1 → checkCustomResponse c zone k = "") ∧
       ((splitSubdomainParts l).filterMap (resolveToken c) = [] →
         checkCustomResponse c zone k = "") ∧
       (2 ≤ (splitSubdomainParts l).length →
         (splitSubdomainParts l).filterMap (resolveToken c) ≠ [] →
         checkCustomResponse c zone k ∈
           (splitSubdomainParts l).filterMap (resolveToken c)))) := by
  constructor
  · intro hne
    unfold checkCustomResponse
    simp [hne]
  · intro l r hsplit hlook
    refine ⟨?_, ?_, ?_⟩
    · intro h1
      unfold checkCustomResponse
      simp [hsplit, hlook, h1]
    · intro hempty
      unfold checkCustomResponse
      simp [hsplit, hlook, collectIps_eq, hempty]
    · intro h2 hne
      have hpos : 0 < ((splitSubdomainParts l).filterMap (resolveToken c)).length :=
        List.length_pos.mpr hne
      rw [checkCustomResponse_eq c zone k l r hsplit, hlook]
      simp only [collectIps_eq]
      have h1f : ((splitSubdomainParts l).length == 1) = false := by
        rw [beq_eq_false_iff_ne]; omega
      have h0f : ((((splitSubdomainParts l).filterMap (resolveToken c))).length == 0) = false := by
        rw [beq_eq_false_iff_ne]; omega
      rw [h1f, if_neg Bool.false_ne_true, h0f, if_neg Bool.false_ne_true]
      exact getD_mem (Nat.mod_lt _ hpos)

/-- Records used by the C4 witness: one per-sub-token overlay `x`. -/
def cRecC4 : CustomDNSRecords :=
  { records := [], v6Records := [],
    subdomainRecords := [("x", "9.9.9.9")], subdomainV6Records := [] }

/-- C4 witness: `deadbeef-x.ex.` resolves into the candidate multiset
`[222.173.190.239, 9.9.9.9]`. -/
theorem claim_C4_witness :
    checkCustomResponse cRecC4 "deadbeef-x.ex." 3 ∈
      (splitSubdomainParts "deadbeef-x").filterMap (resolveToken cRecC4) :=
  ((claim_C4 cRecC4 "deadbeef-x.ex." 3).2 "deadbeef-x" "ex." (by decide)
    (by decide)).2.2 (by decide) (by decide)

/-! ### Origin IP Resolver (getMsgHost, dns_server.go 391-447) -/

/-- One dotted-quad component: decimal digits, value at most 255, no
leading zero (as `net.ParseIP` requires). -/
def parseIPv4Part (s : String) : Option Nat :=
  if !s.data.isEmpty && s.data.all Char.isDigit &&
      (s == "0" || s.data.headD '0' != '0') then
    let n := s.data.foldl (fun acc c => 10 * acc + (c.toNat - '0'.toNat)) 0
    if n ≤ 255 then some n else none
  else none

/-- An IP address: a parsed v4 quad, or an opaque v6 textual form (all the
structure the resolver's comparisons need). -/
inductive IPAddr where
  | v4 (a b c d : Nat)
  | v6 (text : String)
deriving DecidableEq

/-- Models `net.ParseIP`: a dotted quad parses to v4; the schematic `v6:`
textual form produced by `ipBytesString` for 16-byte data parses to v6;
anything else is nil. -/
def parseIP (s : String) : Option IPAddr :=
  match splitOnDot s with
  | [sa, sb, sc, sd] =>
    match parseIPv4Part sa, parseIPv4Part sb, parseIPv4Part sc, parseIPv4Part sd with
    | some a, some b, some c, some d => some (.v4 a b c d)
    | _, _, _, _ => none
  | _ => if hasPrefixStr s "v6:" then some (.v6 s) else none

/-- Models `net.IP.Equal` including the nil cases: two nil IPs are equal,
nil differs from non-nil. -/
def ipEqual (x y : Option IPAddr) : Bool :=
  match x, y with
  | none, none => true
  | some a, some b => a == b
  | _, _ => false

/-- A parsed IPv4 CIDR: masked network value and mask length. -/
structure CIDR4 where
  net : Nat
  bits : Nat
deriving DecidableEq

def ip4Value (a b c d : Nat) : Nat := ((a * 256 + b) * 256 + c) * 256 + d

/-- Aux for `splitOnSlash`. -/
def splitOnSlashAux : List Char → List Char → List String
  | [], cur => [String.mk cur.reverse]
  | c :: rest, cur =>
    if c == '/' then String.mk cur.reverse :: splitOnSlashAux rest []
    else splitOnSlashAux rest (c :: cur)

def splitOnSlash (s : String) : List String :=
  splitOnSlashAux s.data []

def parseDecNat (s : String) : Option Nat :=
  if !s.data.isEmpty && s.data.all Char.isDigit then
    some (s.data.foldl (fun acc c => 10 * acc + (c.toNat - '0'.toNat)) 0)
  else none

/-- Models `net.ParseCIDR` for the IPv4 shapes the server is configured
with: `a.b.c.d/n`, `n <= 32`; everything else fails. -/
def parseCIDR (s : String) : Option CIDR4 :=
  match splitOnSlash s with
  | [ipStr, bitsStr] =>
    match parseIP ipStr, parseDecNat bitsStr with
    | some (.v4 a b c d), some n =>
      if n ≤ 32 then
        some { net := ip4Value a b c d / 2 ^ (32 - n) * 2 ^ (32 - n), bits := n }
      else none
    | _, _ => none
  | _ => none

/-- Models `(*net.IPNet).Contains` for IPv4 networks; a nil or v6 address
is contained in none of them. -/
def cidrContains (cidr : CIDR4) (ip : Option IPAddr) : Bool :=
  match ip with
  | some (.v4 a b c d) =>
    ip4Value a b c d / 2 ^ (32 - cidr.bits) * 2 ^ (32 - cidr.bits) == cidr.net
  | _ => false

/-- The options fields consumed by `getMsgHost`. -/
structure OriginIPOptions where
  OriginIPEDNSopt : Int
  RealIPFrom : List String

/-- The allowlist loop of getMsgHost (lines 400-420).  `none` marks the
nil-pointer dereference the Go code performs when a slash-containing entry
fails `net.ParseCIDR`: the parse error is logged but the entry is not
skipped, and `cidr.Contains` is then called on a nil `*net.IPNet`. -/
def isTrustedLoop (checkIP : Option IPAddr) : List String → Option Bool
  | [] => some false
  | test :: rest =>
    if containsChar test '/' then
      match parseCIDR test with
      | none => none
      | some cidr =>
        if cidrContains cidr checkIP then some true else isTrustedLoop checkIP rest
    else
      if ipEqual (parseIP test) checkIP then some true else isTrustedLoop checkIP rest

/-- An EDNS0 option inside an OPT pseudo-record, as far as getMsgHost
inspects it. -/
inductive EDNSOption where
  | edns0Local (code : Nat) (data : List Nat)
  | otherOpt
deriving DecidableEq

/-- An Additional-section resource record, as far as getMsgHost inspects
it. -/
inductive ExtraRR where
  | opt (options : List EDNSOption)
  | otherRR
deriving DecidableEq

/-- The inner option scan of getMsgHost (lines 429-442): the first LOCAL
option with the matching code decides. -/
def scanOptions (code : Nat) : List EDNSOption → Option (List Nat)
  | [] => none
  | .edns0Local c data :: rest =>
    if c == code then some data else scanOptions code rest
  | .otherOpt :: rest => scanOptions code rest

/-- First matching LOCAL option data over the Additional section, in scan
order (lines 426-444). -/
def ednsFirstData (code : Nat) : List ExtraRR → Option (List Nat)
  | [] => none
  | .opt options :: rest =>
    match scanOptions code options with
    | some data => some data
    | none => ednsFirstData code rest
  | .otherRR :: rest => ednsFirstData code rest

/-- The EDNS scan of getMsgHost: the first matching LOCAL option's data is
formatted to a textual IP and returned; an unparseable result falls back to
the transport host. -/
def ednsResult (code : Nat) (host : String) : List ExtraRR → String
  | [] => host
  | .opt options :: rest =>
    (match scanOptions code options with
     | some data =>
       let testHost := ipBytesString data
       if (parseIP testHost).isNone then host else testHost
     | none => ednsResult code host rest)
  | .otherRR :: rest => ednsResult code host rest

/-- `getMsgHost` (lines 391-447) applied to the port-stripped transport
peer `host`; `none` models the nil-CIDR panic.  The option code is
compared after Go's `uint16(...)` truncation. -/
def getMsgHost (opts : OriginIPOptions) (host : String) (extras : List ExtraRR) :
    Option String :=
  if opts.OriginIPEDNSopt < 0 then some host
  else
    match isTrustedLoop (parseIP host) opts.RealIPFrom with
    | none => none
    | some false => some host
    | some true => some (ednsResult (opts.OriginIPEDNSopt.toNat % 65536) host extras)

theorem ednsResult_eq (code : Nat) (host : String) (extras : List ExtraRR) :
    ednsResult code host extras =
      match ednsFirstData code extras with
      | some data =>
        if (parseIP (ipBytesString data)).isNone then host else ipBytesString data
      | none => host := by
  induction extras with
  | nil => rfl
  | cons e rest ih =>
    cases e with
    | opt options =>
      cases hs : scanOptions code options with
      | some data => simp [ednsResult, ednsFirstData, hs]
      | none => simp [ednsResult, ednsFirstData, hs, ih]
    | otherRR => simpa [ednsResult, ednsFirstData] using ih

theorem scanOptions_mem {code : Nat} {options : List EDNSOption} {data : List Nat}
    (h : scanOptions code options = some data) :
    EDNSOption.edns0Local code data ∈ options := by
  induction options with
  | nil => simp [scanOptions] at h
  | cons o rest ih =>
    cases o with
    | edns0Local c d =>
      by_cases hc : (c == code) = true
      · simp only [scanOptions, hc, if_true] at h
        obtain rfl := Option.some.inj h
        have hceq : c = code := by simpa using hc
        rw [List.mem_cons]
        exact Or.inl (by rw [hceq])
      · simp only [scanOptions, hc, Bool.false_eq_true, if_false] at h
        exact List.mem_cons.mpr (Or.inr (ih h))
    | otherOpt =>
      simp only [scanOptions] at h
      exact List.mem_cons.mpr (Or.inr (ih h))

theorem ednsFirstData_mem {code : Nat} {extras : List ExtraRR} {data : List Nat}
    (h : ednsFirstData code extras = some data) :
    ∃ options, ExtraRR.opt options ∈ extras ∧
      EDNSOption.edns0Local code data ∈ options := by
  induction extras with
  | nil => simp [ednsFirstData] at h
  | cons e rest ih =>
    cases e with
    | opt options =>
      cases hs : scanOptions code options with
      | some d2 =>
        simp only [ednsFirstData, hs] at h
        obtain rfl := Option.some.inj h
        exact ⟨options, List.mem_cons_self _ _, scanOptions_mem hs⟩
      | none =>
        simp only [ednsFirstData, hs] at h
        obtain ⟨os, hmem, hloc⟩ := ih h
        exact ⟨os, List.mem_cons.mpr (Or.inr hmem), hloc⟩
    | otherRR =>
      simp only [ednsFirstData] at h
      obtain ⟨os, hmem, hloc⟩ := ih h
      exact ⟨os, List.mem_cons.mpr (Or.inr hmem), hloc⟩

/-- C6: origin IP resolution returns an address other than the transport
peer host only when the EDNS0 feature is enabled (non-negative option
code), the peer is allowlisted, and an OPT record of Additional carries a
LOCAL option with the configured (uint16-truncated) code; and whenever the
first matching option's data does not format to a parseable IP, the
transport host is returned. -/
theorem claim_C6 (opts : OriginIPOptions) (host : String) (extras : List ExtraRR)
    (res : String) (hres : getMsgHost opts host extras = some res) :
    (res ≠ host →
      0 ≤ opts.OriginIPEDNSopt ∧
      isTrustedLoop (parseIP host) opts.RealIPFrom = some true ∧
      ∃ options data, ExtraRR.opt options ∈ extras ∧
        EDNSOption.edns0Local (opts.OriginIPEDNSopt.toNat % 65536) data ∈ options) ∧
    (∀ data, ednsFirstData (opts.OriginIPEDNSopt.toNat % 65536) extras = some data →
      parseIP (ipBytesString data) = none → res = host) := by
  unfold getMsgHost at hres
  by_cases hneg : opts.OriginIPEDNSopt < 0
  · rw [if_pos hneg] at hres
    obtain rfl := Option.some.inj hres
    exact ⟨fun h => absurd rfl h, fun _ _ _ => rfl⟩
  · rw [if_neg hneg] at hres
    cases ht : isTrustedLoop (parseIP host) opts.RealIPFrom with
    | none => rw [ht] at hres; exact absurd hres (by simp)
    | some b =>
      cases b with
      | false =>
        rw [ht] at hres
        obtain rfl := Option.some.inj hres
        exact ⟨fun h => absurd rfl h, fun _ _ _ => rfl⟩
      | true =>
        rw [ht] at hres
        obtain rfl := Option.some.inj hres
        constructor
        · intro hne
          refine ⟨Int.not_lt.mp hneg, rfl, ?_⟩
          cases hf : ednsFirstData (opts.OriginIPEDNSopt.toNat % 65536) extras with
          | none =>
            rw [ednsResult_eq, hf] at hne
            exact absurd rfl hne
          | some data =>
            obtain ⟨os, hmem, hloc⟩ := ednsFirstData_mem hf
            exact ⟨os, data, hmem, hloc⟩
        · intro data hdata hbad
          rw [ednsResult_eq, hdata]
          simp [hbad]

/-- Options used by the C6 witness: EDNS0 code 5, one allowlisted IP. -/
def optsC6 : OriginIPOptions :=
  { OriginIPEDNSopt := 5, RealIPFrom := ["1.2.3.4", "10.0.0.0/8"] }

/-- The Additional section used by the C6 witness. -/
def extrasC6 : List ExtraRR := [.opt [.edns0Local 5 [9, 9, 9, 9]]]

/-- C6 witness: from peer 1.2.3.4 with a code-5 LOCAL option carrying
bytes 9.9.9.9, the resolver returns 9.9.9.9 and the three conditions
hold. -/
theorem claim_C6_witness :
    ("9.9.9.9" ≠ "1.2.3.4" →
      0 ≤ optsC6.OriginIPEDNSopt ∧
      isTrustedLoop (parseIP "1.2.3.4") optsC6.RealIPFrom = some true ∧
      ∃ options data, ExtraRR.opt options ∈ extrasC6 ∧
        EDNSOption.edns0Local (optsC6.OriginIPEDNSopt.toNat % 65536) data ∈ options) ∧
    (∀ data, ednsFirstData (optsC6.OriginIPEDNSopt.toNat % 65536) extrasC6 = some data →
      parseIP (ipBytesString data) = none → "9.9.9.9" = "1.2.3.4") :=
  claim_C6 optsC6 "1.2.3.4" extrasC6 "9.9.9.9" (by decide)

/-- Options with the EDNS0 feature enabled and one malformed CIDR
allowlist entry. -/
def optsC7 : OriginIPOptions :=
  { OriginIPEDNSopt := 0, RealIPFrom := ["bad/cidr"] }

/-- C7: the code evaluated at the failing input.  A slash-containing entry
that fails `net.ParseCIDR` is logged but not skipped; `cidr.Contains` is
then invoked on the nil `*net.IPNet` and request handling panics instead of
completing with a host string (modelled as `none`). -/
theorem claim_C7_eval : getMsgHost optsC7 "5.6.7.8" [] = none := by decide

/-! ### Authoritative Responder (ServeDNS and handlers, dns_server.go 29-287) -/

/-- Question types the dispatcher distinguishes. -/
inductive QType where
  | a | aaaa | cname | any | mx | ns | soa | txt | ptr | other
deriving DecidableEq

/-- One question of the incoming message. -/
structure Question where
  name : String
  qtype : QType
deriving DecidableEq

/-- A resource record as the handlers build one (addresses kept textual:
the Go code stores `net.ParseIP` results, whose textual form is what the
claims compare). -/
inductive RR where
  | a (name ip : String) (ttl : Nat)
  | aaaa (name ip : String) (ttl : Nat)
  | ns (name target : String) (ttl : Nat)
  | mx (name target : String) (pref : Nat) (ttl : Nat)
  | soa (name nsName mbox : String) (serial expire minttl : Nat)
  | txt (name : String) (txts : List String) (ttl : Nat)
deriving DecidableEq

/-- The reply sections the handlers append to (`m.Answer`, `m.Ns`,
`m.Extra`). -/
structure Msg where
  answer : List RR
  ns : List RR
  extra : List RR
deriving DecidableEq

def emptyMsg : Msg := { answer := [], ns := [], extra := [] }

/-- `acme.DNSChallengeString` from the acme package (outside the supplied
sources): the DNS-01 prefix tested against the lower-cased query name. -/
def dnsChallengeString : String := "_acme-challenge."

/-- `acme.CertificateAuthority` (outside the supplied sources): the
constant SOA Mbox; its exact value is not load-bearing for any claim. -/
def certificateAuthority : String := "acme.certificate.authority"

/-- Server state for the embedded handlers.  `acmeRecords` models the
external `options.ACMEStore.GetRecords` call on the lower-cased zone:
`.ok` yields `(value, ttl)` pairs, `.error` a store failure. -/
structure DNSServerM where
  domains : List String
  ipAddress : String
  ipv6Address : String
  timeToLive : Nat
  txtRecord : String
  customRecords : CustomDNSRecords
  acmeRecords : String → Except Unit (List (String × Nat))

/-- The `nsDomains` table built by `NewDNSServer` (lines 44-56). -/
def nsDomainsOf (domains : List String) : List (String × List String) :=
  domains.map (fun d => (fqdn d, ["ns1." ++ fqdn d, "ns2." ++ fqdn d]))

/-- The `mxDomains` table built by `NewDNSServer`. -/
def mxDomainsOf (domains : List String) : List (String × String) :=
  domains.map (fun d => (fqdn d, "mail." ++ fqdn d))

/-- The NS/glue attachment loop of `resultFunction` (lines 198-207): the
first hit of the candidate list in the NS table appends that apex's NS
records to Authority and one glue A (default v4 IP) per NS name to
Additional. -/
def appendNSBlock (h : DNSServerM) (zone : String) (m : Msg) : List String → Msg
  | [] => m
  | dotDomain :: rest =>
    match List.lookup dotDomain (nsDomainsOf h.domains) with
    | some nss =>
      { m with
        ns := m.ns ++ nss.map (fun nsd => RR.ns zone nsd h.timeToLive),
        extra := m.extra ++ nss.map (fun nsd => RR.a nsd h.ipAddress h.timeToLive) }
    | none => appendNSBlock h zone m rest

/-- `resultFunction` (lines 196-208).  The source reads
`h.options.Domains[0]`, which requires the configured apex list to be
non-empty (the spec mandates this); the model reads `headD` and the
theorems assume a non-empty list. -/
def resultFunction (h : DNSServerM) (zone ip : String) (m : Msg) : Msg :=
  appendNSBlock h zone
    { m with answer := m.answer ++ [RR.a zone ip h.timeToLive] }
    [zone, fqdn (h.domains.headD "")]

/-- `resultFunctionAAAA` (lines 210-222): AAAA answer, same NS block, and
the glue stays v4. -/
def resultFunctionAAAA (h : DNSServerM) (zone ip : String) (m : Msg) : Msg :=
  appendNSBlock h zone
    { m with answer := m.answer ++ [RR.aaaa zone ip h.timeToLive] }
    [zone, fqdn (h.domains.headD "")]

/-- `handleACNAMEANY` (lines 169-180); `k` is the random draw forwarded to
the custom-records engine. -/
def handleACNAMEANY (h : DNSServerM) (k : Nat) (zone : String) (m : Msg) : Msg :=
  let record := checkCustomResponse h.customRecords zone k
  if record != "" then resultFunction h zone record m
  else resultFunction h zone h.ipAddress m

/-- `handleAAAACNAMEANY` (lines 183-194). -/
def handleAAAACNAMEANY (h : DNSServerM) (k : Nat) (zone : String) (m : Msg) : Msg :=
  let record := checkCustomAAAAResponse h.customRecords zone k
  if record != "" then resultFunctionAAAA h zone record m
  else resultFunctionAAAA h zone h.ipv6Address m

/-- First-hit loop of `handleMX` (lines 224-234). -/
def handleMXLoop (h : DNSServerM) (zone : String) (m : Msg) : List String → Msg
  | [] => m
  | dotDomain :: rest =>
    match List.lookup dotDomain (mxDomainsOf h.domains) with
    | some mxd => { m with answer := m.answer ++ [RR.mx zone mxd 1 h.timeToLive] }
    | none => handleMXLoop h zone m rest

def handleMX (h : DNSServerM) (zone : String) (m : Msg) : Msg :=
  handleMXLoop h zone m [zone, fqdn (h.domains.headD "")]

/-- First-hit loop of `handleNS` (lines 236-248). -/
def handleNSLoop (h : DNSServerM) (zone : String) (m : Msg) : List String → Msg
  | [] => m
  | dotDomain :: rest =>
    match List.lookup dotDomain (nsDomainsOf h.domains) with
    | some nss =>
      { m with answer := m.answer ++ nss.map (fun nsd => RR.ns zone nsd h.timeToLive) }
    | none => handleNSLoop h zone m rest

def handleNS (h : DNSServerM) (zone : String) (m : Msg) : Msg :=
  handleNSLoop h zone m [zone, fqdn (h.domains.headD "")]

/-- `handleSOA` (lines 250-261): the inner loop returns after its first NS
name, so one SOA is appended for the first table hit with a non-empty NS
list. -/
def handleSOALoop (h : DNSServerM) (zone : String) (m : Msg) : List String → Msg
  | [] => m
  | dotDomain :: rest =>
    match List.lookup dotDomain (nsDomainsOf h.domains) with
    | some [] => handleSOALoop h zone m rest
    | some (nsd :: _) =>
      { m with answer := m.answer ++ [RR.soa zone nsd certificateAuthority 1 60 60] }
    | none => handleSOALoop h zone m rest

def handleSOA (h : DNSServerM) (zone : String) (m : Msg) : Msg :=
  handleSOALoop h zone m [zone, fqdn (h.domains.headD "")]

/-- `handleTXT` (lines 263-265): a single TXT carrying the current
`TxtRecord` with TTL hard-coded to 0. -/
def handleTXT (h : DNSServerM) (zone : String) (m : Msg) : Msg :=
  { m with answer := m.answer ++ [RR.txt zone [h.txtRecord] 0] }

/-- `handleACMETXTChallenge` (lines 153-166). -/
def handleACMETXTChallenge (h : DNSServerM) (zone : String) (m : Msg) :
    Except Unit Msg :=
  match h.acmeRecords (toLowerStr zone) with
  | .error e => .error e
  | .ok records =>
    .ok { m with answer := m.answer ++ records.map (fun r0 => RR.txt zone [r0.1] r0.2) }

/-- One iteration of the question loop of `ServeDNS` (lines 98-141): the
updated message and challenge flag, or the early-return error of the ACME
TXT branch. -/
def processQuestion (h : DNSServerM) (k : Nat) (q : Question) (m : Msg)
    (isChal : Bool) : Except Unit (Msg × Bool) :=
  if hasPrefixStr (toLowerStr q.name) dnsChallengeString then
    match q.qtype with
    | .soa => .ok (handleSOA h q.name m, true)
    | .txt =>
      match handleACMETXTChallenge h q.name m with
      | .error e => .error e
      | .ok m2 => .ok (m2, true)
    | .ns => .ok (handleNS h q.name m, true)
    | .a => .ok (handleACNAMEANY h k q.name m, true)
    | .aaaa => .ok (handleAAAACNAMEANY h k q.name m, true)
    | _ => .ok (m, true)
  else
    match q.qtype with
    | .a | .cname | .any => .ok (handleACNAMEANY h k q.name m, isChal)
    | .aaaa => .ok (handleAAAACNAMEANY h k q.name m, isChal)
    | .mx => .ok (handleMX h q.name m, isChal)
    | .ns => .ok (handleNS h q.name m, isChal)
    | .soa => .ok (handleSOA h q.name m, isChal)
    | .txt => .ok (handleTXT h q.name m, isChal)
    | _ => .ok (m, isChal)

def questionLoop (h : DNSServerM) (k : Nat) :
    List Question → Msg → Bool → Except Unit (Msg × Bool)
  | [], m, isChal => .ok (m, isChal)
  | q :: rest, m, isChal =>
    match processQuestion h k q m isChal with
    | .error e => .error e
    | .ok (m2, c2) => questionLoop h k rest m2 c2

/-- The observable outcome of one `ServeDNS` call: the statistics counter
increment, the message handed to `w.WriteMsg` (`none` = never called), and
whether `handleInteraction` ran. -/
structure ServeOutcome where
  statsIncrement : Nat
  written : Option Msg
  interactionHandled : Bool
deriving DecidableEq

/-- `ServeDNS` (lines 85-150): increment the DNS counter, bail early on an
empty question section, dispatch every question by qtype (with the ACME
branch's early return on a TXT store error), then run the interaction
handler for non-challenge messages and write the reply. -/
def serveDNS (h : DNSServerM) (k : Nat) (questions : List Question) : ServeOutcome :=
  if questions.length == 0 then
    { statsIncrement := 1, written := none, interactionHandled := false }
  else
    match questionLoop h k questions emptyMsg false with
    | .error _ => { statsIncrement := 1, written := none, interactionHandled := false }
    | .ok (m, isChal) =>
      { statsIncrement := 1, written := some m, interactionHandled := !isChal }

/-! ### Claims C5, C8, C9, C10 -/

/-- C5: for the question of an A/CNAME/ANY (resp. AAAA) query, the
responder looks up the question name and then the primary apex fqdn in the
NS table; the first hit appends that apex's NS set to Authority and one
glue A per NS name carrying the default v4 IP to Additional - so a name
under no apex still receives the primary apex's NS block. -/
theorem claim_C5 (h : DNSServerM) (d0 : String) (drest : List String)
    (hdom : h.domains = d0 :: drest) (zone ip : String) (m : Msg) :
    (∀ nss, List.lookup zone (nsDomainsOf h.domains) = some nss →
      resultFunction h zone ip m =
        { answer := m.answer ++ [RR.a zone ip h.timeToLive],
          ns := m.ns ++ nss.map (fun nsd => RR.ns zone nsd h.timeToLive),
          extra := m.extra ++ nss.map (fun nsd => RR.a nsd h.ipAddress h.timeToLive) } ∧
      resultFunctionAAAA h zone ip m =
        { answer := m.answer ++ [RR.aaaa zone ip h.timeToLive],
          ns := m.ns ++ nss.map (fun nsd => RR.ns zone nsd h.timeToLive),
          extra := m.extra ++ nss.map (fun nsd => RR.a nsd h.ipAddress h.timeToLive) }) ∧
    (List.lookup zone (nsDomainsOf h.domains) = none →
      resultFunction h zone ip m =
        { answer := m.answer ++ [RR.a zone ip h.timeToLive],
          ns := m.ns ++ [RR.ns zone ("ns1." ++ fqdn d0) h.timeToLive,
                         RR.ns zone ("ns2." ++ fqdn d0) h.timeToLive],
          extra := m.extra ++ [RR.a ("ns1." ++ fqdn d0) h.ipAddress h.timeToLive,
                               RR.a ("ns2." ++ fqdn d0) h.ipAddress h.timeToLive] } ∧
      resultFunctionAAAA h zone ip m =
        { answer := m.answer ++ [RR.aaaa zone ip h.timeToLive],
          ns := m.ns ++ [RR.ns zone ("ns1." ++ fqdn d0) h.timeToLive,
                         RR.ns zone ("ns2." ++ fqdn d0) h.timeToLive],
          extra := m.extra ++ [RR.a ("ns1." ++ fqdn d0) h.ipAddress h.timeToLive,
                               RR.a ("ns2." ++ fqdn d0) h.ipAddress h.timeToLive] }) := by
  constructor
  · intro nss hzone
    constructor
    · unfold resultFunction appendNSBlock
      rw [hzone]
    · unfold resultFunctionAAAA appendNSBlock
      rw [hzone]
  · intro hzone
    have hhead : h.domains.headD "" = d0 := by rw [hdom]; rfl
    have hprim : List.lookup (fqdn d0) (nsDomainsOf h.domains) =
        some ["ns1." ++ fqdn d0, "ns2." ++ fqdn d0] := by
      rw [hdom]
      simp [nsDomainsOf, List.lookup]
    constructor
    · unfold resultFunction appendNSBlock
      rw [hzone, hhead]
      unfold appendNSBlock
      rw [hprim]
      rfl
    · unfold resultFunctionAAAA appendNSBlock
      rw [hzone, hhead]
      unfold appendNSBlock
      rw [hprim]
      rfl

/-- Server used by the C5 witness: one apex `oob.example`. -/
def srvC5 : DNSServerM :=
  { domains := ["oob.example"], ipAddress := "192.0.2.10", ipv6Address := "v6:db8",
    timeToLive := 60, txtRecord := "",
    customRecords :=
      { records := [], v6Records := [], subdomainRecords := [], subdomainV6Records := [] },
    acmeRecords := fun _ => .ok [] }

/-- C5 witness: the unrelated name `alien.example.` still receives the
primary apex's NS block with v4 glue. -/
theorem claim_C5_witness :
    resultFunction srvC5 "alien.example." "192.0.2.10" emptyMsg =
      { answer := emptyMsg.answer ++ [RR.a "alien.example." "192.0.2.10" srvC5.timeToLive],
        ns := emptyMsg.ns ++
          [RR.ns "alien.example." ("ns1." ++ fqdn "oob.example") srvC5.timeToLive,
           RR.ns "alien.example." ("ns2." ++ fqdn "oob.example") srvC5.timeToLive],
        extra := emptyMsg.extra ++
          [RR.a ("ns1." ++ fqdn "oob.example") srvC5.ipAddress srvC5.timeToLive,
           RR.a ("ns2." ++ fqdn "oob.example") srvC5.ipAddress srvC5.timeToLive] } ∧
    resultFunctionAAAA srvC5 "alien.example." "v6:db8" emptyMsg =
      { answer := emptyMsg.answer ++ [RR.aaaa "alien.example." "v6:db8" srvC5.timeToLive],
        ns := emptyMsg.ns ++
          [RR.ns "alien.example." ("ns1." ++ fqdn "oob.example") srvC5.timeToLive,
           RR.ns "alien.example." ("ns2." ++ fqdn "oob.example") srvC5.timeToLive],
        extra := emptyMsg.extra ++
          [RR.a ("ns1." ++ fqdn "oob.example") srvC5.ipAddress srvC5.timeToLive,
           RR.a ("ns2." ++ fqdn "oob.example") srvC5.ipAddress srvC5.timeToLive] } :=
  ⟨((claim_C5 srvC5 "oob.example" [] rfl "alien.example." "192.0.2.10" emptyMsg).2
      (by decide)).1,
   ((claim_C5 srvC5 "oob.example" [] rfl "alien.example." "v6:db8" emptyMsg).2
      (by decide)).2⟩

/-- Whether processing `q` hits the ACME-TXT store-error early return. -/
def acmeTxtErrs (h : DNSServerM) (q : Question) : Bool :=
  hasPrefixStr (toLowerStr q.name) dnsChallengeString && q.qtype == QType.txt &&
    (match h.acmeRecords (toLowerStr q.name) with
     | .error _ => true
     | .ok _ => false)

theorem processQuestion_ok (h : DNSServerM) (k : Nat) (q : Question) (m : Msg)
    (isChal : Bool) (hq : acmeTxtErrs h q = false) :
    ∃ m2 c2, processQuestion h k q m isChal = .ok (m2, c2) := by
  unfold processQuestion
  by_cases hpre : hasPrefixStr (toLowerStr q.name) dnsChallengeString = true
  · rw [if_pos hpre]
    cases hqt : q.qtype <;> try exact ⟨_, _, rfl⟩
    all_goals
      unfold handleACMETXTChallenge
      cases hrec : h.acmeRecords (toLowerStr q.name) with
      | error e =>
        exfalso
        unfold acmeTxtErrs at hq
        rw [hpre, hqt, hrec] at hq
        simp at hq
      | ok records => exact ⟨_, _, rfl⟩
  · rw [if_neg hpre]
    cases q.qtype <;> exact ⟨_, _, rfl⟩

theorem questionLoop_append (h : DNSServerM) (k : Nat) (pre rest : List Question)
    (m : Msg) (isChal : Bool)
    (hpre : ∀ q ∈ pre, acmeTxtErrs h q = false) :
    ∃ m2 c2, questionLoop h k (pre ++ rest) m isChal = questionLoop h k rest m2 c2 := by
  induction pre generalizing m isChal with
  | nil => exact ⟨m, isChal, rfl⟩
  | cons q t ih =>
    obtain ⟨m2, c2, hok⟩ :=
      processQuestion_ok h k q m isChal (hpre q (List.mem_cons_self q t))
    rw [List.cons_append]
    have hstep : questionLoop h k (q :: (t ++ rest)) m isChal =
        questionLoop h k (t ++ rest) m2 c2 := by
      simp only [questionLoop]
      rw [hok]
    rw [hstep]
    exact ih m2 c2 (fun q2 hq2 => hpre q2 (List.mem_cons.mpr (Or.inr hq2)))

/-- C8 inputs: a server whose ACME store always errors, and a message with
a normal A question followed by the erroring ACME TXT question. -/
def srvC8 : DNSServerM :=
  { domains := ["ex"], ipAddress := "1.1.1.1", ipv6Address := "v6:one",
    timeToLive := 60, txtRecord := "tok",
    customRecords :=
      { records := [], v6Records := [], subdomainRecords := [], subdomainV6Records := [] },
    acmeRecords := fun _ => .error () }

def qsC8 : List Question :=
  [{ name := "foo.ex.", qtype := QType.a },
   { name := "_acme-challenge.ex.", qtype := QType.txt }]

/-- C8 counterexample: the A question alone yields a written response with
a non-empty answer, but adding the erroring ACME TXT question makes
`ServeDNS` return before `WriteMsg` - nothing is written at all, against
the claim that the response is still sent with the other RRs. -/
theorem claim_C8_cex :
    (serveDNS srvC8 0 qsC8).written = none ∧
    (serveDNS srvC8 0 [{ name := "foo.ex.", qtype := QType.a }]).written ≠ none :=
  ⟨by decide, by decide⟩

/-- C8 (amended): when the ACME record store errors for a TXT query under
the challenge prefix (and no earlier question already errored), ServeDNS
returns early: no DNS response is written, and resource records already
produced for the message's other questions are discarded; the interaction
dispatcher does not run either. -/
theorem claim_C8_amended (h : DNSServerM) (k : Nat) (pre post : List Question)
    (zone : String)
    (hpre : ∀ q ∈ pre, acmeTxtErrs h q = false)
    (hzone : hasPrefixStr (toLowerStr zone) dnsChallengeString = true)
    (herr : h.acmeRecords (toLowerStr zone) = .error ()) :
    serveDNS h k (pre ++ { name := zone, qtype := QType.txt } :: post) =
      { statsIncrement := 1, written := none, interactionHandled := false } := by
  obtain ⟨m2, c2, hloop⟩ :=
    questionLoop_append h k pre ({ name := zone, qtype := QType.txt } :: post)
      emptyMsg false hpre
  have hpq : processQuestion h k { name := zone, qtype := QType.txt } m2 c2 =
      .error () := by
    unfold processQuestion handleACMETXTChallenge
    rw [if_pos hzone, herr]
  have herrq : questionLoop h k ({ name := zone, qtype := QType.txt } :: post) m2 c2 =
      .error () := by
    unfold questionLoop
    rw [hpq]
  have hlen : ((pre ++ { name := zone, qtype := QType.txt } :: post).length == 0) = false := by
    rw [beq_eq_false_iff_ne]
    simp only [List.length_append, List.length_cons]
    omega
  unfold serveDNS
  rw [hlen, if_neg Bool.false_ne_true, hloop, herrq]

/-- C8 witness for the amended claim: one preceding A question, the
erroring ACME TXT question, empty tail. -/
theorem claim_C8_witness :
    serveDNS srvC8 0
        ([{ name := "foo.ex.", qtype := QType.a }] ++
          { name := "_acme-challenge.ex.", qtype := QType.txt } :: []) =
      { statsIncrement := 1, written := none, interactionHandled := false } :=
  claim_C8_amended srvC8 0 [{ name := "foo.ex.", qtype := QType.a }] []
    "_acme-challenge.ex." (by decide) (by decide) rfl

/-- C9: a DNS message with an empty question section increments the DNS
statistics counter, writes no response message, and dispatches no
interaction (the handler returns before `handleInteraction` and
`WriteMsg`). -/
theorem claim_C9 (h : DNSServerM) (k : Nat) :
    serveDNS h k [] =
      { statsIncrement := 1, written := none, interactionHandled := false } := rfl

/-- C10: a single non-ACME TXT question yields a written response whose
answer is exactly one TXT record carrying the current `TxtRecord` field at
TTL 0, whatever the configured server TTL; the interaction dispatcher
runs. -/
theorem claim_C10 (h : DNSServerM) (k : Nat) (zone : String)
    (hz : hasPrefixStr (toLowerStr zone) dnsChallengeString = false) :
    serveDNS h k [{ name := zone, qtype := QType.txt }] =
      { statsIncrement := 1,
        written := some { answer := [RR.txt zone [h.txtRecord] 0], ns := [], extra := [] },
        interactionHandled := true } := by
  have hpq : processQuestion h k { name := zone, qtype := QType.txt } emptyMsg false =
      .ok ({ answer := [RR.txt zone [h.txtRecord] 0], ns := [], extra := [] }, false) := by
    unfold processQuestion handleTXT
    rw [if_neg (by rw [hz]; exact Bool.false_ne_true)]
    rfl
  unfold serveDNS questionLoop
  rw [hpq]
  rfl

/-- C10 witness: the non-ACME TXT query `x.ex.` against the concrete
server. -/
theorem claim_C10_witness :
    serveDNS srvC8 0 [{ name := "x.ex.", qtype := QType.txt }] =
      { statsIncrement := 1,
        written := some { answer := [RR.txt "x.ex." ["tok"] 0], ns := [], extra := [] },
        interactionHandled := true } :=
  claim_C10 srvC8 0 "x.ex." (by decide)

end Interactsh
